import Mathlib

/-!
Verification of the gladlang runtime core against its specification.

The definitions below are a shallow embedding of the Python sources
(`src/gladlang/interpreter.py`, `src/gladlang/values.py`,
`src/gladlang/runtime.py`).  Classes are represented by numeric
identities (Python compares `Class` objects by identity), machine-level
masking is expressed with `% 2 ^ 32`, and Python-level partiality
(`IndexError`, `ValueError`, missing checks) is made explicit in the
result types.
-/

namespace Gladlang

/-! ## Method resolution order: `Interpreter.compute_mro` (interpreter.py lines 828-864)

Classes are identified by `Nat` (Python compares them by object
identity).  The merge state is the `merge_list` of the source: a list of
lists of class identities. -/

/-- Sum of the lengths of all lists in the merge state; used as fuel for
the merge loop (each iteration pops at least one element). -/
def totalLen (ls : List (List Nat)) : Nat :=
  (ls.map List.length).sum

/-- Check of `compute_mro`'s inner loop: the candidate must not appear in
`other_lst[1:]` for any list of the merge state (interpreter.py lines 846-850). -/
def headValid (ls : List (List Nat)) (cand : Nat) : Bool :=
  ls.all fun l => decide (cand ∉ l.tail)

/-- Scan of `compute_mro`'s candidate loop (interpreter.py lines 843-853):
the first head of some list that is valid against every list. -/
def selectCand (ls : List (List Nat)) : Option Nat :=
  ls.findSome? fun l =>
    match l.head? with
    | some c => if headValid ls c then some c else none
    | none => none

/-- Removal step of `compute_mro` (interpreter.py lines 860-862): pop the
selected head from every list it heads. -/
def popHead (h : Nat) (ls : List (List Nat)) : List (List Nat) :=
  ls.map fun l => if l.head? = some h then l.tail else l

/-- Outcome of the merge loop.  `inconsistent` is the
"Inconsistent inheritance hierarchy (Cycle or bad MRO)" error of
interpreter.py line 856; `outOfFuel` never occurs for sufficient fuel
(proved below), mirroring that the Python `while True` loop terminates. -/
inductive MergeResult where
  | ok (mro : List Nat)
  | inconsistent
  | outOfFuel
deriving DecidableEq, Repr

/-- Fueled body of the `while True` merge loop of `compute_mro`
(interpreter.py lines 838-864): drop empty lists, stop when none remain,
select a valid head, emit it and pop it everywhere. -/
def mergeFuel : Nat → List (List Nat) → MergeResult
  | 0, _ => .outOfFuel
  | f + 1, ls =>
    let ls1 := ls.filter fun l => !l.isEmpty
    if ls1.isEmpty then .ok []
    else
      match selectCand ls1 with
      | none => .inconsistent
      | some h =>
        match mergeFuel f (popHead h ls1) with
        | .ok m => .ok (h :: m)
        | r => r

/-- Embedding of `Interpreter.compute_mro` (interpreter.py lines 828-864):
the merge state starts as `[[class_val]]`, then each parent's MRO, then
the list of parents itself.  The parents' MROs are inputs because the
source reads `parent.mro`, computed when each parent class was defined. -/
def compute_mro (c : Nat) (supers : List Nat) (superMros : List (List Nat)) :
    MergeResult :=
  let ls := [c] :: superMros ++ [supers]
  mergeFuel (totalLen ls + 1) ls

theorem selectCand_spec {ls : List (List Nat)} {h : Nat}
    (hs : selectCand ls = some h) :
    (∃ l ∈ ls, l.head? = some h) ∧ ∀ l ∈ ls, h ∉ l.tail := by
  unfold selectCand at hs
  obtain ⟨l, hl, hfl⟩ := List.exists_of_findSome?_eq_some hs
  revert hfl
  cases hhead : l.head? with
  | none => intro hfl; simp at hfl
  | some c =>
    intro hfl
    by_cases hv : headValid ls c
    · simp only [hv, if_true] at hfl
      obtain rfl : c = h := by simpa using hfl
      refine ⟨⟨l, hl, hhead⟩, ?_⟩
      intro l2 hl2
      have := (List.all_eq_true.mp hv) l2 hl2
      simpa using this
    · simp [hv] at hfl

theorem totalLen_popHead_le (h : Nat) (ls : List (List Nat)) :
    totalLen (popHead h ls) ≤ totalLen ls := by
  induction ls with
  | nil => simp [totalLen, popHead]
  | cons l rest ih =>
    simp only [totalLen, popHead, List.map_cons, List.sum_cons] at *
    have hl : (if l.head? = some h then l.tail else l).length ≤ l.length := by
      split
      · exact l.length_tail ▸ Nat.sub_le _ _
      · exact Nat.le_refl _
    omega

theorem totalLen_popHead_lt {h : Nat} {ls : List (List Nat)}
    (hex : ∃ l ∈ ls, l.head? = some h) :
    totalLen (popHead h ls) < totalLen ls := by
  induction ls with
  | nil => simp at hex
  | cons l rest ih =>
    obtain ⟨l0, hl0, hhead⟩ := hex
    simp only [totalLen, popHead, List.map_cons, List.sum_cons]
    rcases List.mem_cons.mp hl0 with rfl | hmem
    · have hne : l0 ≠ [] := by
        intro hnil; rw [hnil] at hhead; simp at hhead
      have hlt : (if l0.head? = some h then l0.tail else l0).length < l0.length := by
        rw [if_pos hhead, List.length_tail]
        exact Nat.sub_lt (List.length_pos.mpr hne) Nat.one_pos
      have hle := totalLen_popHead_le h rest
      simp only [totalLen, popHead] at hle
      omega
    · have hlt := ih ⟨l0, hmem, hhead⟩
      simp only [totalLen, popHead] at hlt
      have hle : (if l.head? = some h then l.tail else l).length ≤ l.length := by
        split
        · exact l.length_tail ▸ Nat.sub_le _ _
        · exact Nat.le_refl _
      omega

theorem totalLen_filter_le (p : List Nat → Bool) (ls : List (List Nat)) :
    totalLen (ls.filter p) ≤ totalLen ls := by
  induction ls with
  | nil => simp [totalLen]
  | cons l rest ih =>
    simp only [totalLen, List.filter_cons, List.map_cons, List.sum_cons] at *
    split
    · simp only [List.map_cons, List.sum_cons]; omega
    · omega

/-- Termination of the merge loop: with fuel exceeding the total number of
elements, `mergeFuel` never runs out. -/
theorem mergeFuel_ne_outOfFuel :
    ∀ (f : Nat) (ls : List (List Nat)), totalLen ls < f →
      mergeFuel f ls ≠ .outOfFuel := by
  intro f
  induction f with
  | zero => intro ls h; omega
  | succ f ih =>
    intro ls hlt
    unfold mergeFuel
    simp only
    split
    · simp
    · cases hsel : selectCand (ls.filter fun l => !l.isEmpty) with
      | none => simp
      | some h =>
        have hex := (selectCand_spec hsel).1
        have h1 : totalLen (popHead h (ls.filter fun l => !l.isEmpty)) <
            totalLen (ls.filter fun l => !l.isEmpty) := totalLen_popHead_lt hex
        have h2 : totalLen (ls.filter fun l => !l.isEmpty) ≤ totalLen ls :=
          totalLen_filter_le _ ls
        have := ih (popHead h (ls.filter fun l => !l.isEmpty)) (by omega)
        dsimp only
        cases hm : mergeFuel f (popHead h (ls.filter fun l => !l.isEmpty)) with
        | ok m => simp
        | inconsistent => simp
        | outOfFuel => exact absurd hm this

/-- Order preservation: every duplicate-free list of the merge state is a
sublist of a successful merge output (so the relative order of any two of
its elements is preserved). -/
theorem mergeFuel_sublist :
    ∀ (f : Nat) (ls : List (List Nat)) (m : List Nat),
      mergeFuel f ls = .ok m → ∀ l ∈ ls, l.Nodup → l.Sublist m := by
  intro f
  induction f with
  | zero => intro ls m h; simp [mergeFuel] at h
  | succ f ih =>
    intro ls m hok l hl hnd
    unfold mergeFuel at hok
    simp only at hok
    by_cases hemp : (ls.filter fun l => !l.isEmpty).isEmpty
    · rw [if_pos hemp] at hok
      obtain rfl : ([] : List Nat) = m := by
        cases hok; rfl
      have : l = [] := by
        by_contra hne
        have : l ∈ ls.filter fun l => !l.isEmpty :=
          List.mem_filter.mpr ⟨hl, by simpa using hne⟩
        rw [List.isEmpty_iff] at hemp
        rw [hemp] at this
        simp at this
      simp [this]
    · rw [if_neg hemp] at hok
      cases hsel : selectCand (ls.filter fun l => !l.isEmpty) with
      | none => rw [hsel] at hok; cases hok
      | some h =>
        simp only [hsel] at hok
        cases hm : mergeFuel f (popHead h (ls.filter fun l => !l.isEmpty)) with
        | ok m1 =>
          rw [hm] at hok
          obtain rfl : h :: m1 = m := by cases hok; rfl
          by_cases hln : l = []
          · simp [hln]
          · have hlf : l ∈ ls.filter fun l => !l.isEmpty :=
              List.mem_filter.mpr ⟨hl, by simpa using hln⟩
            have hnotail : h ∉ l.tail := (selectCand_spec hsel).2 l hlf
            by_cases hhd : l.head? = some h
            · obtain ⟨t, rfl⟩ : ∃ t, l = h :: t := by
                cases l with
                | nil => simp at hhd
                | cons a t =>
                  simp only [List.head?_cons, Option.some.injEq] at hhd
                  exact ⟨t, by rw [hhd]⟩
              have htmem : t ∈ popHead h (ls.filter fun l => !l.isEmpty) := by
                unfold popHead
                refine List.mem_map.mpr ⟨h :: t, hlf, ?_⟩
                simp
              have := ih _ m1 hm t htmem (List.Nodup.of_cons hnd)
              exact List.Sublist.cons₂ h this
            · have hlh : h ∉ l := by
                intro hin
                cases l with
                | nil => simp at hin
                | cons a t =>
                  rcases List.mem_cons.mp hin with rfl | hint
                  · exact hhd rfl
                  · exact hnotail hint
              have hlmem : l ∈ popHead h (ls.filter fun l => !l.isEmpty) := by
                unfold popHead
                refine List.mem_map.mpr ⟨l, hlf, ?_⟩
                rw [if_neg hhd]
              have := ih _ m1 hm l hlmem hnd
              exact List.Sublist.cons h this
        | inconsistent => rw [hm] at hok; cases hok
        | outOfFuel => rw [hm] at hok; cases hok

/-- Completeness: a successful merge consumes every element of every list
of the merge state; no partial output is ever produced. -/
theorem mergeFuel_complete :
    ∀ (f : Nat) (ls : List (List Nat)) (m : List Nat),
      mergeFuel f ls = .ok m → ∀ l ∈ ls, ∀ x ∈ l, x ∈ m := by
  intro f
  induction f with
  | zero => intro ls m h; simp [mergeFuel] at h
  | succ f ih =>
    intro ls m hok l hl x hx
    unfold mergeFuel at hok
    simp only at hok
    by_cases hemp : (ls.filter fun l => !l.isEmpty).isEmpty
    · rw [if_pos hemp] at hok
      have : l = [] := by
        by_contra hne
        have : l ∈ ls.filter fun l => !l.isEmpty :=
          List.mem_filter.mpr ⟨hl, by simpa using hne⟩
        rw [List.isEmpty_iff] at hemp
        rw [hemp] at this
        simp at this
      rw [this] at hx
      simp at hx
    · rw [if_neg hemp] at hok
      cases hsel : selectCand (ls.filter fun l => !l.isEmpty) with
      | none => rw [hsel] at hok; cases hok
      | some h =>
        simp only [hsel] at hok
        cases hm : mergeFuel f (popHead h (ls.filter fun l => !l.isEmpty)) with
        | ok m1 =>
          rw [hm] at hok
          obtain rfl : h :: m1 = m := by cases hok; rfl
          by_cases hxh : x = h
          · simp [hxh]
          · have hln : l ≠ [] := by
              intro hnil; rw [hnil] at hx; simp at hx
            have hlf : l ∈ ls.filter fun l => !l.isEmpty :=
              List.mem_filter.mpr ⟨hl, by simpa using hln⟩
            have hxpop : x ∈ (if l.head? = some h then l.tail else l) := by
              split
              · next hhd =>
                cases l with
                | nil => simp at hx
                | cons a t =>
                  simp only [List.head?_cons, Option.some.injEq] at hhd
                  rcases List.mem_cons.mp hx with rfl | hint
                  · exact absurd hhd hxh
                  · exact hint
              · exact hx
            have hmem : (if l.head? = some h then l.tail else l) ∈
                popHead h (ls.filter fun l => !l.isEmpty) := by
              unfold popHead
              exact List.mem_map.mpr ⟨l, hlf, rfl⟩
            have := ih _ m1 hm _ hmem x hxpop
            exact List.mem_cons_of_mem h this
        | inconsistent => rw [hm] at hok; cases hok
        | outOfFuel => rw [hm] at hok; cases hok

/-- First-output lemma: when the first list of the merge state is the
singleton `[c]` and `c` occurs in no other list, a successful merge
starts with `c`. -/
theorem mergeFuel_head {f : Nat} {c : Nat} {rest : List (List Nat)}
    {m : List Nat} (hok : mergeFuel f ([c] :: rest) = .ok m)
    (hc : ∀ l ∈ rest, c ∉ l) : m.head? = some c := by
  cases f with
  | zero => simp [mergeFuel] at hok
  | succ f =>
    unfold mergeFuel at hok
    simp only at hok
    have hfil : (([c] :: rest).filter fun l => !l.isEmpty) =
        [c] :: rest.filter fun l => !l.isEmpty := by
      simp [List.filter_cons]
    rw [hfil] at hok
    have hemp : ¬([c] :: rest.filter fun l => !l.isEmpty).isEmpty := by simp
    rw [if_neg hemp] at hok
    have hsel : selectCand ([c] :: rest.filter fun l => !l.isEmpty) = some c := by
      unfold selectCand
      rw [List.findSome?_cons]
      have hv : headValid ([c] :: rest.filter fun l => !l.isEmpty) c = true := by
        rw [headValid, List.all_eq_true]
        intro l hl
        rcases List.mem_cons.mp hl with rfl | hmem
        · simp
        · have : l ∈ rest := (List.mem_filter.mp hmem).1
          have hcl := hc l this
          simp only [decide_eq_true_eq]
          intro ht
          exact hcl (List.mem_of_mem_tail ht)
      simp [hv]
    simp only [hsel] at hok
    cases hm : mergeFuel f (popHead c ([c] :: rest.filter fun l => !l.isEmpty)) with
    | ok m1 =>
      rw [hm] at hok
      obtain rfl : c :: m1 = m := by cases hok; rfl
      rfl
    | inconsistent => rw [hm] at hok; cases hok
    | outOfFuel => rw [hm] at hok; cases hok

/-- C1: for every class whose superclass hierarchy is valid (the class is
fresh, i.e. appears in no parent MRO and not among the parents — which is
how `visit_ClassNode` always calls `compute_mro` — and the merge finds no
conflict), `compute_mro` terminates (never runs out of fuel), is
deterministic (it is a pure function of its inputs), outputs a sequence
whose first element is the class itself, and preserves each ancestor
MRO's relative internal ordering (each duplicate-free parent MRO is a
sublist of the output). -/
theorem compute_mro_valid_hierarchy :
    (∀ (c : Nat) (supers : List Nat) (superMros : List (List Nat)),
      compute_mro c supers superMros ≠ .outOfFuel) ∧
    (∀ (c : Nat) (supers : List Nat) (superMros : List (List Nat)) (m : List Nat),
      compute_mro c supers superMros = .ok m →
      c ∉ supers → (∀ l ∈ superMros, c ∉ l) →
      m.head? = some c ∧ ∀ l ∈ superMros, l.Nodup → l.Sublist m) := by
  constructor
  · intro c supers superMros
    exact mergeFuel_ne_outOfFuel _ _ (Nat.lt_succ_self _)
  · intro c supers superMros m hok hcs hcm
    unfold compute_mro at hok
    refine ⟨mergeFuel_head hok ?_, ?_⟩
    · intro l hl
      rcases List.mem_append.mp hl with hmem | hmem
      · exact hcm l hmem
      · obtain rfl : l = supers := by simpa using hmem
        exact hcs
    · intro l hl hnd
      exact mergeFuel_sublist _ _ _ hok l
        (List.mem_cons_of_mem _ (List.mem_append_left _ hl)) hnd

/-- Witness for C1 at the diamond hierarchy `D(B, C)`, `B(A)`, `C(A)`
(identities `A = 0`, `B = 1`, `C = 2`, `D = 3`). -/
theorem compute_mro_valid_hierarchy_witness :
    compute_mro 3 [1, 2] [[1, 0], [2, 0]] = .ok [3, 1, 2, 0] ∧
    ([3, 1, 2, 0].head? = some 3 ∧
      ∀ l ∈ [[1, 0], [2, 0]], l.Nodup → l.Sublist [3, 1, 2, 0]) :=
  ⟨by decide,
    compute_mro_valid_hierarchy.2 3 [1, 2] [[1, 0], [2, 0]] [3, 1, 2, 0]
      (by decide) (by decide) (by decide)⟩

/-- C6: a hierarchy with a linearization conflict makes `compute_mro`
return the inconsistency error (concretely: `Z(X, Y)` where `X` and `Y`
order the parents `A`, `B` in opposite ways), the merge loop always
terminates, and a successful merge is never partial: every class of every
input list (each parent MRO, the parent list, and the class itself)
occurs in the output. -/
theorem compute_mro_inconsistent_hierarchy :
    compute_mro 0 [1, 2] [[1, 3, 4], [2, 4, 3]] = .inconsistent ∧
    (∀ (c : Nat) (supers : List Nat) (superMros : List (List Nat)),
      compute_mro c supers superMros ≠ .outOfFuel) ∧
    (∀ (c : Nat) (supers : List Nat) (superMros : List (List Nat)) (m : List Nat),
      compute_mro c supers superMros = .ok m →
      c ∈ m ∧ (∀ x ∈ supers, x ∈ m) ∧ ∀ l ∈ superMros, ∀ x ∈ l, x ∈ m) := by
  refine ⟨by decide, ?_, ?_⟩
  · intro c supers superMros
    exact mergeFuel_ne_outOfFuel _ _ (Nat.lt_succ_self _)
  · intro c supers superMros m hok
    unfold compute_mro at hok
    refine ⟨?_, ?_, ?_⟩
    · exact mergeFuel_complete _ _ _ hok [c] (List.mem_cons_self _ _) c
        (List.mem_cons_self _ _)
    · intro x hx
      exact mergeFuel_complete _ _ _ hok supers
        (List.mem_cons_of_mem _ (List.mem_append_right _ (List.mem_cons_self _ _))) x hx
    · intro l hl x hx
      exact mergeFuel_complete _ _ _ hok l
        (List.mem_cons_of_mem _ (List.mem_append_left _ hl)) x hx

/-- Witness for C6's universally quantified parts at the diamond
hierarchy. -/
theorem compute_mro_inconsistent_hierarchy_witness :
    (3 : Nat) ∈ [3, 1, 2, 0] ∧ ∀ x ∈ [1, 2], x ∈ [3, 1, 2, 0] :=
  ⟨(compute_mro_inconsistent_hierarchy.2.2 3 [1, 2] [[1, 0], [2, 0]]
      [3, 1, 2, 0] (by decide)).1,
    (compute_mro_inconsistent_hierarchy.2.2 3 [1, 2] [[1, 0], [2, 0]]
      [3, 1, 2, 0] (by decide)).2.1⟩

/-! ## Scope frames: `SymbolTable` (runtime.py lines 18-78)

A `SymbolTable` owns `symbols`, `visibilities` (dicts keyed by name) and
`finals` (a set of names), plus a parent link.  The parent chain is
modelled as a list of frames, innermost first; the empty list plays the
role of a missing parent.  The per-frame mutex is defensive only (spec
section 5) and has no semantic content. -/

/-- One scope frame of `SymbolTable` (runtime.py lines 18-24), with the
dicts as association lists. -/
structure Frame (V : Type) where
  symbols : List (String × V)
  visibilities : List (String × String)
  finals : List String
deriving DecidableEq, Repr

/-- Dictionary write: replace the first binding of the key, else append
(Python `d[k] = v`). -/
def assocSet {α : Type} : List (String × α) → String → α → List (String × α)
  | [], k, v => [(k, v)]
  | (k1, v1) :: rest, k, v =>
    if k1 = k then (k, v) :: rest else (k1, v1) :: assocSet rest k v

/-- Embedding of `SymbolTable.set` (runtime.py lines 26-31): overwrite the
binding in this frame, record visibility, add to `finals` when requested
(never removes an existing final mark). -/
def Frame.set {V : Type} (fr : Frame V) (name : String) (v : V)
    (visibility : String) (as_final : Bool) : Frame V :=
  { symbols := assocSet fr.symbols name v
    visibilities := assocSet fr.visibilities name visibility
    finals := if as_final then name :: fr.finals else fr.finals }

/-- Embedding of `SymbolTable.get` (runtime.py lines 43-48): frame-local
lookup, then the parent chain. -/
def getVar {V : Type} : List (Frame V) → String → Option V
  | [], _ => none
  | fr :: rest, name =>
    match fr.symbols.lookup name with
    | some v => some v
    | none => getVar rest name

/-- Embedding of `SymbolTable.update` (runtime.py lines 50-59): walking
the chain, a frame where the name is final fails; a frame where the name
is bound is rebound; otherwise recurse to the parent; falling off the
chain is the undefined-name error. -/
def update {V : Type} : List (Frame V) → String → V → Except String (List (Frame V))
  | [], name, _ => .error ("'" ++ name ++ "' is not defined")
  | fr :: rest, name, v =>
    if name ∈ fr.finals then
      .error ("Cannot reassign constant '" ++ name ++ "'")
    else if (fr.symbols.lookup name).isSome then
      .ok ({ fr with symbols := assocSet fr.symbols name v } :: rest)
    else
      match update rest name v with
      | .ok rest1 => .ok (fr :: rest1)
      | .error e => .error e

/-- Embedding of `Interpreter.visit_VarAssignNode` (interpreter.py lines
354-379): a declaration checks the current frame's finals and then sets;
a non-declaration delegates to `SymbolTable.update`. -/
def visit_VarAssignNode {V : Type} (chain : List (Frame V)) (name : String)
    (v : V) (is_declaration : Bool) (target_visibility : String) :
    Except String (List (Frame V)) :=
  match chain with
  | [] => .error "no current scope"
  | fr :: rest =>
    if is_declaration then
      if name ∈ fr.finals then
        .error ("Cannot reassign constant '" ++ name ++ "'")
      else
        .ok (fr.set name v target_visibility false :: rest)
    else
      update (fr :: rest) name v

/-- Embedding of the `VarAssignNode` branch of
`Interpreter.visit_VisibilityStmtNode` (interpreter.py lines 892-916).
The `FINAL` path refuses names already bound in the current frame; every
other visibility calls `SymbolTable.set` directly, with no finals check
(source line 915). -/
def visit_VisibilityStmtNode {V : Type} (chain : List (Frame V))
    (visibility target_visibility : String) (name : String) (v : V) :
    Except String (List (Frame V)) :=
  match chain with
  | [] => .error "no current scope"
  | fr :: rest =>
    if visibility = "FINAL" then
      if (fr.symbols.lookup name).isSome then
        .error ("Variable '" ++ name ++ "' is already defined")
      else
        .ok (fr.set name v target_visibility true :: rest)
    else
      .ok (fr.set name v visibility false :: rest)

/-- Embedding of the single-variable path of `Interpreter.unpack_and_set`
(interpreter.py lines 432-450): a name final anywhere along the chain is
refused as a loop variable; otherwise the name is set in the current
frame. -/
def unpack_and_set_var {V : Type} (chain : List (Frame V)) (name : String)
    (v : V) : Except String (List (Frame V)) :=
  if chain.any fun fr => decide (name ∈ fr.finals) then
    .error ("Cannot use constant '" ++ name ++ "' as loop variable")
  else
    match chain with
    | [] => .error "no current scope"
    | fr :: rest => .ok (fr.set name v "PUBLIC" false :: rest)

/-- Concrete frame holding a final binding `x = 1`, for the C3
counterexample. -/
def c3Frame : Frame Nat :=
  { symbols := [("x", 1)], visibilities := [("x", "PUBLIC")], finals := ["x"] }

/-- C3 counterexample: `x` is final in the frame, yet a `PRIVATE`
declaration (a visibility-qualified declaration, one of the operations
the claim covers) succeeds and rebinds `x` to `2`, with no
constant-reassignment error — refuting the claim as stated. -/
theorem visibility_decl_rebinds_final :
    "x" ∈ c3Frame.finals ∧
    visit_VisibilityStmtNode [c3Frame] "PRIVATE" "PRIVATE" "x" (2 : Nat) =
      .ok [{ symbols := [("x", 2)], visibilities := [("x", "PRIVATE")],
             finals := ["x"] }] ∧
    getVar [Frame.set c3Frame "x" 2 "PRIVATE" false] "x" = some 2 :=
  ⟨by decide, rfl, rfl⟩

/-- C3 amended: a final name in a frame is protected from plain
declarations, from updates reaching that frame, from `FINAL`
redeclaration (which fails with an already-defined error), and from
loop-variable binding — but not from a visibility-qualified non-`FINAL`
declaration, which silently rebinds it
(`visibility_decl_rebinds_final`). -/
theorem final_not_rebound_amended {V : Type} :
    (∀ (fr : Frame V) (rest : List (Frame V)) (name : String) (v : V)
        (tvis : String), name ∈ fr.finals →
      ∃ e, visit_VarAssignNode (fr :: rest) name v true tvis = .error e) ∧
    (∀ (pre : List (Frame V)) (fr : Frame V) (rest : List (Frame V))
        (name : String) (v : V),
      (∀ f ∈ pre, name ∉ f.finals ∧ f.symbols.lookup name = none) →
      name ∈ fr.finals →
      update (pre ++ fr :: rest) name v =
        .error ("Cannot reassign constant '" ++ name ++ "'")) ∧
    (∀ (fr : Frame V) (rest : List (Frame V)) (name : String) (v : V)
        (tvis : String), (fr.symbols.lookup name).isSome →
      ∃ e, visit_VisibilityStmtNode (fr :: rest) "FINAL" tvis name v = .error e) ∧
    (∀ (chain : List (Frame V)) (fr : Frame V) (name : String) (v : V),
      fr ∈ chain → name ∈ fr.finals →
      ∃ e, unpack_and_set_var chain name v = .error e) := by
  refine ⟨?_, ?_, ?_, ?_⟩
  · intro fr rest name v tvis hf
    exact ⟨"Cannot reassign constant '" ++ name ++ "'",
      by simp [visit_VarAssignNode, hf]⟩
  · intro pre fr rest name v hpre hf
    induction pre with
    | nil => simp [update, hf]
    | cons f pre ih =>
      have hfst := hpre f (List.mem_cons_self _ _)
      have hrest : ∀ g ∈ pre, name ∉ g.finals ∧ g.symbols.lookup name = none :=
        fun g hg => hpre g (List.mem_cons_of_mem _ hg)
      simp only [List.cons_append, update, hfst.2]
      rw [if_neg hfst.1]
      simp [ih hrest]
  · intro fr rest name v tvis hs
    exact ⟨"Variable '" ++ name ++ "' is already defined",
      by simp [visit_VisibilityStmtNode, hs]⟩
  · intro chain fr name v hmem hf
    have hany : (chain.any fun fr => decide (name ∈ fr.finals)) = true :=
      List.any_eq_true.mpr ⟨fr, hmem, by simpa using hf⟩
    exact ⟨"Cannot use constant '" ++ name ++ "' as loop variable",
      by simp [unpack_and_set_var, hany]⟩

/-- Witness for C3's amended theorem at a concrete final binding. -/
theorem final_not_rebound_amended_witness :
    (∃ e, visit_VarAssignNode [c3Frame] "x" (5 : Nat) true "PUBLIC" = .error e) ∧
    update [c3Frame] "x" (5 : Nat) = .error "Cannot reassign constant 'x'" ∧
    (∃ e, visit_VisibilityStmtNode [c3Frame] "FINAL" "PUBLIC" "x" (5 : Nat) =
      .error e) ∧
    (∃ e, unpack_and_set_var [c3Frame] "x" (5 : Nat) = .error e) :=
  ⟨final_not_rebound_amended.1 c3Frame [] "x" 5 "PUBLIC" (by decide),
    final_not_rebound_amended.2.1 [] c3Frame [] "x" 5 (by intro f hf; cases hf)
      (by decide),
    final_not_rebound_amended.2.2.1 c3Frame [] "x" 5 "PUBLIC" (by decide),
    final_not_rebound_amended.2.2.2 [c3Frame] c3Frame "x" 5 (by decide) (by decide)⟩

/-! ## Function overloads: `FunctionGroup` (values.py lines 849-919) and
`Interpreter.visit_FunDefNode` (interpreter.py lines 663-688)

A `Function` is identified here by its arity plus an identity tag (`fid`)
so that which member survives a definition can be observed. -/

/-- Data of a `Function` relevant to overload handling (values.py lines
782-800). -/
structure Func where
  arity : Nat
  visibility : String
  is_static : Bool
  fid : Nat
deriving DecidableEq, Repr

/-- Data of a `FunctionGroup` (values.py lines 849-855): the
arity-indexed member dict plus the group-level visibility/static
metadata adopted from the first member. -/
structure FunctionGroup where
  name : String
  functions : List (Nat × Func)
  visibility : String
  is_static : Bool
deriving DecidableEq, Repr

/-- Dictionary write keyed by arity (Python `self.functions[arity] = func`). -/
def aritySet : List (Nat × Func) → Nat → Func → List (Nat × Func)
  | [], k, v => [(k, v)]
  | (k1, v1) :: rest, k, v =>
    if k1 = k then (k, v) :: rest else (k1, v1) :: aritySet rest k v

/-- Embedding of `FunctionGroup.add_function` (values.py lines 857-887).
The pair returned is (group after the call, error if any): on an arity
conflict the group is unchanged and the overload-conflict error is
returned; otherwise the member is inserted first, and a visibility
mismatch against the group is reported only afterwards (so the member
stays inserted, as in the source). -/
def add_function (g : FunctionGroup) (f : Func) :
    FunctionGroup × Option String :=
  if (g.functions.lookup f.arity).isSome then
    (g, some ("Overload conflict: '" ++ g.name ++ "' already has a variant"))
  else
    let g1 := { g with functions := aritySet g.functions f.arity f }
    if g1.functions.length = 1 then
      ({ g1 with visibility := f.visibility, is_static := f.is_static }, none)
    else if f.visibility ≠ g.visibility then
      (g1, some ("All overloads of '" ++ g.name ++
        "' must have the same visibility"))
    else
      (g1, none)

/-- Embedding of the dispatch in `FunctionGroup.execute` (values.py lines
889-901): resolve purely by argument count; an unlisted arity is a fatal
error. -/
def FunctionGroup.execute (g : FunctionGroup) (arity : Nat) :
    Except String Func :=
  match g.functions.lookup arity with
  | some f => .ok f
  | none =>
    .error ("No variant of function '" ++ g.name ++ "' found that accepts " ++
      toString arity ++ " arguments")

/-- Binding stored for a name in a scope, as far as function definition
is concerned. -/
inductive ScopeVal where
  | fn (f : Func)
  | grp (g : FunctionGroup)
  | other
deriving DecidableEq, Repr

/-- Embedding of the named-function path of
`Interpreter.visit_FunDefNode` (interpreter.py lines 663-688).  The
returned `Option String` is the error of the produced `RTResult`: the
source always ends in `res.success`, discarding the value
`add_function` returns (lines 675, 679-680), so it is always `none`. -/
def visit_FunDefNode (tbl : List (String × ScopeVal)) (name : String)
    (f : Func) : List (String × ScopeVal) × Option String :=
  match tbl.lookup name with
  | some (.grp g) =>
    let ge := add_function g f
    (assocSet tbl name (.grp ge.1), none)
  | some (.fn f0) =>
    let g0 : FunctionGroup :=
      { name := name, functions := [], visibility := "PUBLIC", is_static := false }
    let g1 := (add_function g0 f0).1
    let g2 := (add_function g1 f).1
    (assocSet tbl name (.grp g2), none)
  | _ => (assocSet tbl name (.fn f), none)

/-- First and second definition of `f` with one parameter each, carrying
distinct identities. -/
def c2FuncA : Func := { arity := 1, visibility := "PUBLIC", is_static := false, fid := 0 }

/-- Conflicting second overload for C2. -/
def c2FuncB : Func := { arity := 1, visibility := "PUBLIC", is_static := false, fid := 1 }

/-- Overload group holding only the first definition of `f`. -/
def c2Group : FunctionGroup :=
  { name := "f", functions := [(1, c2FuncA)], visibility := "PUBLIC",
    is_static := false }

/-- C2: defining two same-named functions of the same arity in one scope
does NOT fail — `visit_FunDefNode` discards the overload-conflict error
`add_function` returns (interpreter.py lines 675, 679-680), completes
with no error, and the scope silently keeps only the first function —
while `add_function` itself does construct the conflict error, and
calling an existing group with an unlisted arity does fail at call time
as the claim states. -/
theorem overload_conflict_error_discarded :
    (visit_FunDefNode (visit_FunDefNode [] "f" c2FuncA).1 "f" c2FuncB =
      ([("f", .grp c2Group)], none)) ∧
    (add_function c2Group c2FuncB).2 =
      some "Overload conflict: 'f' already has a variant" ∧
    (∀ (g : FunctionGroup) (n : Nat), g.functions.lookup n = none →
      ∃ e, FunctionGroup.execute g n = .error e) := by
  refine ⟨by decide, by decide, ?_⟩
  intro g n hmiss
  exact ⟨"No variant of function '" ++ g.name ++ "' found that accepts " ++
      toString n ++ " arguments", by simp [FunctionGroup.execute, hmiss]⟩

/-- Witness for C2's call-time conjunct at a concrete group and arity. -/
theorem overload_conflict_error_discarded_witness :
    ∃ e, FunctionGroup.execute c2Group 2 = .error e :=
  overload_conflict_error_discarded.2.2 c2Group 2 (by decide)

/-! ## Call depth: `Function.execute` (values.py lines 802-831) and
`BoundMethod.execute` (values.py lines 1475-1516)

`generate_new_context` (values.py lines 725-728) chains the new frame to
the callable's captured context, so the new frame's depth is that
context's depth plus one (runtime.py line 87).  The body is abstracted as
the value the interpreter visit would produce; a definition whose result
ignores that value has, observably, not evaluated the body. -/

/-- Control-flow outcome of executing a user-defined callable. -/
inductive ExecOutcome (α : Type) where
  | recursionError
  | arityError
  | bodyEvaluated (r : α)
deriving DecidableEq, Repr

/-- Embedding of `Function.execute` (values.py lines 802-831): the new
frame's depth is checked against 250 before arguments are bound and
before the body is visited; exceeding it is the "Recursion limit
exceeded" fatal error in the RTResult channel. -/
def function_execute {α : Type} (parentDepth numParams numArgs : Nat)
    (body : α) : ExecOutcome α :=
  let newDepth := parentDepth + 1
  if 250 < newDepth then .recursionError
  else if numArgs ≠ numParams then .arityError
  else .bodyEvaluated body

/-- Embedding of `BoundMethod.execute` when the wrapped callable is a
plain `Function` (values.py lines 1475-1516): a new frame is created and
`THIS` bound, arguments are checked (after the THIS adjustments, which
only affect the counts supplied here), and the body is visited — with no
depth check anywhere on this path. -/
def bound_method_execute_function {α : Type}
    (parentDepth numParams numArgs : Nat) (body : α) : ExecOutcome α :=
  let _newDepth := parentDepth + 1
  if numArgs ≠ numParams then .arityError
  else .bodyEvaluated body

/-- C5 counterexample: a `BoundMethod` wrapping a plain `Function` whose
new frame would have depth 301 (> 250) still evaluates the body and
returns its result instead of the recursion-limit error. -/
theorem bound_method_skips_depth_check :
    250 < 300 + 1 ∧
    bound_method_execute_function 300 0 0 (42 : Nat) = .bodyEvaluated 42 := by
  decide

/-- C5 amended: a plain `Function` call whose new frame would have depth
greater than 250 fails with the recursion-limit fatal error through the
normal error channel and its body is not evaluated (the outcome is
independent of the body's value); a `BoundMethod` wrapping a plain
`Function` performs no such check
(`bound_method_skips_depth_check`). -/
theorem function_recursion_limit {α : Type} :
    ∀ (d p a : Nat) (b1 b2 : α), 250 < d + 1 →
      function_execute d p a b1 = .recursionError ∧
      function_execute d p a b1 = function_execute d p a b2 := by
  intro d p a b1 b2 hd
  constructor
  · simp [function_execute, hd]
  · simp [function_execute, hd]

/-- Witness for C5's amended theorem at depth 300. -/
theorem function_recursion_limit_witness :
    function_execute 300 1 1 (7 : Nat) = .recursionError ∧
    function_execute 300 1 1 (7 : Nat) = function_execute 300 1 1 9 :=
  function_recursion_limit 300 1 1 7 9 (by decide)

/-! ## Try/catch/finally: `Interpreter.visit_TryCatchNode`
(interpreter.py lines 1388-1437)

The try body's result, the catch body's result (when a catch clause
exists) and the finally body's result (when a finally clause exists) are
inputs; the second component of the output records whether the finally
body was visited. -/

/-- Embedding of `RTResult` (runtime.py lines 91-131). -/
structure RTRes (V : Type) where
  value : Option V := none
  error : Option String := none
  return_value : Option V := none
  should_return : Bool := false
  should_break : Bool := false
  should_continue : Bool := false
deriving DecidableEq, Repr

/-- Embedding of `RTResult.register` (runtime.py lines 100-110): merge
the child's error and signals into the receiver. -/
def RTRes.register {V : Type} (self res : RTRes V) : RTRes V :=
  { self with
    error := match res.error with | some e => some e | none => self.error
    return_value := if res.should_return then res.return_value else self.return_value
    should_return := self.should_return || res.should_return
    should_break := self.should_break || res.should_break
    should_continue := self.should_continue || res.should_continue }

/-- Embedding of `RTResult.success` (runtime.py lines 112-114). -/
def RTRes.success {V : Type} (r : RTRes V) (v : V) : RTRes V :=
  { r with value := some v }

/-- Shared tail of `visit_TryCatchNode` (interpreter.py lines 1432-1437):
register the finally result; an error in it makes the statement fail,
otherwise the statement succeeds with null (keeping merged signals). -/
def tryCatchCommon {V : Type} (res1 : RTRes V) (finRes : Option (RTRes V))
    (nullv : V) : RTRes V × Bool :=
  match finRes with
  | some f =>
    let res2 := res1.register f
    if res2.error.isSome then (res2, true) else (res2.success nullv, true)
  | none => (res1.success nullv, false)

/-- Embedding of `Interpreter.visit_TryCatchNode` (interpreter.py lines
1388-1437).  The boolean in the result records whether the finally body
was visited.  Note the branch for a try body that completed with a
return/break/continue signal (source lines 1427-1430): the finally body
is visited but its result — including any fatal error — is discarded. -/
def visit_TryCatchNode {V : Type} (tryRes : RTRes V)
    (catchRes : Option (RTRes V)) (finRes : Option (RTRes V)) (nullv : V) :
    RTRes V × Bool :=
  if tryRes.error.isSome then
    match catchRes with
    | some cres =>
      let res1 := (({} : RTRes V)).register cres
      if res1.error.isSome then
        match finRes with
        | some f =>
          match f.error with
          | some e => ({ res1 with error := some e }, true)
          | none => (res1, true)
        | none => (res1, false)
      else
        tryCatchCommon res1 finRes nullv
    | none =>
      match finRes with
      | some f => if f.error.isSome then (f, true) else (tryRes, true)
      | none => (tryRes, false)
  else
    let res1 := (({} : RTRes V)).register tryRes
    if res1.should_return || res1.should_break || res1.should_continue then
      (res1, finRes.isSome)
    else
      tryCatchCommon res1 finRes nullv

/-- Try result carrying a return signal, for the C7 counterexample. -/
def c7TryReturn : RTRes Nat :=
  { return_value := some 5, should_return := true }

/-- Finally result carrying a fatal error, for the C7 counterexample. -/
def c7FinError : RTRes Nat := { error := some "fin boom" }

/-- C7 counterexample: the try body completes with a return signal and
the finally body raises a fatal error, yet the statement's outcome keeps
the return signal and carries no error — the finally error is discarded
instead of superseding the pending signal. -/
theorem finally_error_discarded_on_signal :
    c7FinError.error = some "fin boom" ∧
    (visit_TryCatchNode c7TryReturn none (some c7FinError) 0).1.error = none ∧
    (visit_TryCatchNode c7TryReturn none (some c7FinError) 0).1.should_return
      = true ∧
    (visit_TryCatchNode c7TryReturn none (some c7FinError) 0).2 = true := by
  decide

/-- C7 amended: the finally body is always evaluated after the try body
(or the catch body when one ran) regardless of outcome, and a fatal
error raised inside it supersedes any pending result — except when the
try body completed without error but with a return/break/continue
signal, in which case the finally body still runs but its error is
discarded (`finally_error_discarded_on_signal`). -/
theorem finally_runs_and_supersedes {V : Type} :
    (∀ (tryRes : RTRes V) (catchRes : Option (RTRes V)) (f : RTRes V)
        (nullv : V),
      (visit_TryCatchNode tryRes catchRes (some f) nullv).2 = true) ∧
    (∀ (tryRes : RTRes V) (catchRes : Option (RTRes V)) (f : RTRes V)
        (e : String) (nullv : V),
      f.error = some e →
      (tryRes.error.isSome ∨
        (tryRes.should_return = false ∧ tryRes.should_break = false ∧
          tryRes.should_continue = false)) →
      (visit_TryCatchNode tryRes catchRes (some f) nullv).1.error = some e) := by
  constructor
  · intro tryRes catchRes f nullv
    unfold visit_TryCatchNode
    split
    · cases catchRes with
      | some cres =>
        dsimp only
        split
        · cases hf : f.error <;> simp
        · simp only [tryCatchCommon]
          split <;> rfl
      | none =>
        dsimp only
        split <;> simp
    · dsimp only
      split
      · simp
      · simp only [tryCatchCommon]
        split <;> rfl
  · intro tryRes catchRes f e nullv hfe hside
    unfold visit_TryCatchNode
    split
    · cases catchRes with
      | some cres =>
        dsimp only
        split
        · rw [hfe]
        · simp only [tryCatchCommon]
          have : ((({} : RTRes V)).register cres |>.register f).error = some e := by
            simp [RTRes.register, hfe]
          simp [this, RTRes.success]
      | none =>
        dsimp only
        simp [hfe]
    · next htry =>
      rcases hside with herr | hsig
      · exact absurd herr htry
      · have hres : (({} : RTRes V)).register tryRes =
            { value := none, error := tryRes.error,
              return_value := if tryRes.should_return then tryRes.return_value else none,
              should_return := tryRes.should_return,
              should_break := tryRes.should_break,
              should_continue := tryRes.should_continue } := by
          simp [RTRes.register]
          cases tryRes.error <;> simp
        dsimp only
        rw [hres]
        simp [hsig.1, hsig.2.1, hsig.2.2, tryCatchCommon, RTRes.register, hfe,
          RTRes.success]

/-- Witness for C7's amended theorem at concrete results. -/
theorem finally_runs_and_supersedes_witness :
    (visit_TryCatchNode ({ error := some "try boom" } : RTRes Nat) none
      (some c7FinError) 0).2 = true ∧
    (visit_TryCatchNode ({ error := some "try boom" } : RTRes Nat) none
      (some c7FinError) 0).1.error = some "fin boom" :=
  ⟨finally_runs_and_supersedes.1 { error := some "try boom" } none c7FinError 0,
    finally_runs_and_supersedes.2 { error := some "try boom" } none c7FinError
      "fin boom" 0 rfl (Or.inl rfl)⟩

/-! ## Bitwise operations on numbers: values.py lines 316-354

Python integers are arbitrary-precision two's-complement values, so the
source's `x & 0xFFFFFFFF` mask equals `x % 2 ^ 32` (the nonnegative
remainder); the operand combination itself uses Mathlib's two's-complement
`Int.land`/`Int.lor`/`Int.xor`/`Int.lnot`, which match Python's `&`, `|`,
`^`, `~`.  The `int(...)` conversions of the source are the identity
here because `Number` payloads are modelled as integers. -/

/-- Modulus of the 32-bit mask `0xFFFFFFFF`. -/
def twoPow32 : Int := 4294967296

/-- Embedding of `Number.bitted_and_by` (values.py lines 316-320). -/
def bitted_and_by (a b : Int) : Int := Int.land a b % twoPow32

/-- Embedding of `Number.bitted_or_by` (values.py lines 322-326). -/
def bitted_or_by (a b : Int) : Int := Int.lor a b % twoPow32

/-- Embedding of `Number.bitted_xor_by` (values.py lines 328-332). -/
def bitted_xor_by (a b : Int) : Int := Int.xor a b % twoPow32

/-- Embedding of `Number.bitted_not` (values.py lines 345-346). -/
def bitted_not (a : Int) : Int := Int.lnot a % twoPow32

/-- Result of a shift, distinguishing the RTError channel from a Python
`ValueError` escaping the evaluator uncaught. -/
inductive ShiftResult where
  | ok (n : Int)
  | rtError (msg : String)
  | pythonValueError
deriving DecidableEq, Repr

/-- Embedding of `Number.lshifted_by` (values.py lines 334-343): Python
`<<` is multiplication by a power of two, the `ValueError` for a negative
count is caught and returned as the "Negative shift count" RTError, and
the result is masked. -/
def lshifted_by (a c : Int) : ShiftResult :=
  if c < 0 then .rtError "Negative shift count"
  else .ok (a * 2 ^ c.toNat % twoPow32)

/-- Embedding of `Number.rshifted_by` (values.py lines 348-354): Python
`>>` is an arithmetic right shift; the result is returned with no mask,
and there is no guard for a negative count, so Python's `ValueError`
escapes the evaluator. -/
def rshifted_by (a c : Int) : ShiftResult :=
  if c < 0 then .pythonValueError
  else .ok (a >>> (c.toNat : Int))

/-- C8: the and/or/xor/not results and the left-shift result are masked
to 32 bits and a negative left-shift count is an in-channel fatal error,
as the claim states — but `rshifted_by` violates both halves of the
claim: a negative right-shift count raises an uncaught Python
`ValueError` instead of a fatal runtime error, and the right-shift
result is not masked (`4294967296 >> 0` stays `4294967296 ≥ 2 ^ 32`). -/
theorem bitwise_mask32_and_shift_errors :
    (∀ a b : Int, 0 ≤ bitted_and_by a b ∧ bitted_and_by a b < twoPow32) ∧
    (∀ a b : Int, 0 ≤ bitted_or_by a b ∧ bitted_or_by a b < twoPow32) ∧
    (∀ a b : Int, 0 ≤ bitted_xor_by a b ∧ bitted_xor_by a b < twoPow32) ∧
    (∀ a : Int, 0 ≤ bitted_not a ∧ bitted_not a < twoPow32) ∧
    (∀ a c : Int, c < 0 → lshifted_by a c = .rtError "Negative shift count") ∧
    (∀ a c : Int, 0 ≤ c →
      lshifted_by a c = .ok (a * 2 ^ c.toNat % twoPow32) ∧
      0 ≤ a * 2 ^ c.toNat % twoPow32 ∧ a * 2 ^ c.toNat % twoPow32 < twoPow32) ∧
    rshifted_by 1 (-1) = .pythonValueError ∧
    rshifted_by 4294967296 0 = .ok 4294967296 := by
  have hpos : (0 : Int) < twoPow32 := by decide
  refine ⟨?_, ?_, ?_, ?_, ?_, ?_, by decide, by decide⟩
  · intro a b
    exact ⟨Int.emod_nonneg _ (by decide), Int.emod_lt_of_pos _ hpos⟩
  · intro a b
    exact ⟨Int.emod_nonneg _ (by decide), Int.emod_lt_of_pos _ hpos⟩
  · intro a b
    exact ⟨Int.emod_nonneg _ (by decide), Int.emod_lt_of_pos _ hpos⟩
  · intro a
    exact ⟨Int.emod_nonneg _ (by decide), Int.emod_lt_of_pos _ hpos⟩
  · intro a c hc
    simp [lshifted_by, hc]
  · intro a c hc
    refine ⟨by simp [lshifted_by, Int.not_lt.mpr hc], ?_, ?_⟩
    · exact Int.emod_nonneg _ (by decide)
    · exact Int.emod_lt_of_pos _ hpos

/-- Witness for C8's hypothesis-bearing conjuncts at concrete shifts. -/
theorem bitwise_mask32_and_shift_errors_witness :
    lshifted_by 5 (-1) = .rtError "Negative shift count" ∧
    lshifted_by 5 2 = .ok 20 :=
  ⟨bitwise_mask32_and_shift_errors.2.2.2.2.1 5 (-1) (by decide),
    by
      have h := (bitwise_mask32_and_shift_errors.2.2.2.2.2.1 5 2 (by decide)).1
      simpa using h⟩

/-! ## Negative indexing: `List.get_element_at` (values.py lines 501-519)
and `String.get_element_at` (values.py lines 435-453)

Both sources evaluate Python `seq[int(i)]` inside a try/except that turns
`IndexError` into the out-of-bounds RTError.  `pyGet` embeds Python
sequence indexing: a nonnegative index within range, or a negative index
counting from the end, succeeds; everything else raises. -/

/-- Python sequence indexing `seq[i]` on integers. -/
def pyGet {α : Type} (l : List α) (i : Int) : Option α :=
  if 0 ≤ i then l.get? i.toNat
  else if 0 ≤ (l.length : Int) + i then l.get? ((l.length : Int) + i).toNat
  else none

/-- Embedding of `List.get_element_at` for a `Number` index (values.py
lines 501-519). -/
def list_get_element_at {α : Type} (elements : List α) (i : Int) :
    Except String α :=
  match pyGet elements i with
  | some x => .ok x
  | none => .error ("List index " ++ toString i ++ " out of bounds")

/-- Embedding of `String.get_element_at` for a `Number` index (values.py
lines 435-453); the string is its list of characters and the result the
one-character string. -/
def string_get_element_at (s : List Char) (i : Int) :
    Except String (List Char) :=
  match pyGet s i with
  | some c => .ok [c]
  | none => .error ("String index " ++ toString i ++ " out of bounds")

theorem pyGet_neg {α : Type} (l : List α) (i : Int)
    (hlo : -(l.length : Int) ≤ i) (hhi : i < 0) :
    ∃ (h : ((l.length : Int) + i).toNat < l.length),
      pyGet l i = some (l.get ⟨((l.length : Int) + i).toNat, h⟩) := by
  have hn : (0 : Int) ≤ (l.length : Int) + i := by omega
  have hlt : ((l.length : Int) + i).toNat < l.length := by omega
  refine ⟨hlt, ?_⟩
  unfold pyGet
  rw [if_neg (by omega), if_pos hn]
  exact List.get?_eq_get hlt

theorem pyGet_out_of_range {α : Type} (l : List α) (i : Int)
    (hout : i < -(l.length : Int) ∨ (l.length : Int) ≤ i) :
    pyGet l i = none := by
  unfold pyGet
  rcases hout with hlt | hge
  · rw [if_neg (by omega), if_neg (by omega)]
  · rw [if_pos (by omega)]
    apply List.get?_eq_none.mpr
    omega

/-- C10: element access on a `List` or a `String` with a negative index
`i` in `[-n, 0)` succeeds and yields the element at position `n + i`
(counting from the end), and exactly the indices outside `[-n, n)`
produce the out-of-bounds error. -/
theorem negative_index_counts_from_end {α : Type} :
    (∀ (l : List α) (i : Int), -(l.length : Int) ≤ i → i < 0 →
      ∃ (h : ((l.length : Int) + i).toNat < l.length),
        list_get_element_at l i = .ok (l.get ⟨((l.length : Int) + i).toNat, h⟩)) ∧
    (∀ (l : List α) (i : Int), i < -(l.length : Int) ∨ (l.length : Int) ≤ i →
      list_get_element_at l i =
        .error ("List index " ++ toString i ++ " out of bounds")) ∧
    (∀ (s : List Char) (i : Int), -(s.length : Int) ≤ i → i < 0 →
      ∃ (h : ((s.length : Int) + i).toNat < s.length),
        string_get_element_at s i = .ok [s.get ⟨((s.length : Int) + i).toNat, h⟩]) ∧
    (∀ (s : List Char) (i : Int), i < -(s.length : Int) ∨ (s.length : Int) ≤ i →
      string_get_element_at s i =
        .error ("String index " ++ toString i ++ " out of bounds")) := by
  refine ⟨?_, ?_, ?_, ?_⟩
  · intro l i hlo hhi
    obtain ⟨h, hg⟩ := pyGet_neg l i hlo hhi
    exact ⟨h, by simp [list_get_element_at, hg]⟩
  · intro l i hout
    simp [list_get_element_at, pyGet_out_of_range l i hout]
  · intro s i hlo hhi
    obtain ⟨h, hg⟩ := pyGet_neg s i hlo hhi
    exact ⟨h, by simp [string_get_element_at, hg]⟩
  · intro s i hout
    simp [string_get_element_at, pyGet_out_of_range s i hout]

/-- Witness for C10 at `[10, 20, 30][-1]` and `"ab"[5]`. -/
theorem negative_index_counts_from_end_witness :
    list_get_element_at [10, 20, 30] (-1) = .ok 30 ∧
    string_get_element_at [Char.ofNat 97, Char.ofNat 98] 5 =
      .error "String index 5 out of bounds" := by
  constructor
  · have h := (@negative_index_counts_from_end Nat).1 [10, 20, 30] (-1)
      (by decide) (by decide)
    obtain ⟨hb, hg⟩ := h
    simpa using hg
  · have h := (@negative_index_counts_from_end Nat).2.2.2
      [Char.ofNat 97, Char.ofNat 98] 5 (by decide)
    simpa using h

/-! ## Member access and visibility: `Instance.check_access`,
`Instance.get_attr` (values.py lines 1132-1196) and `Class.get_attr`
(values.py lines 1019-1108)

Classes are identified by `Nat` (Python identity); an environment maps a
class identity to its MRO, its name (used by the private-field name
mangling), its static-field table (name to visibility) and its method
table.  Static-field payloads are modelled as plain non-callable values,
and method hits carry the method's visibility/defining-class/static
metadata. -/

/-- Method metadata relevant to access checks (values.py lines 782-800). -/
structure MethodInfo where
  visibility : String
  defining : Nat
  is_static : Bool
deriving DecidableEq, Repr

/-- Class environment: per-class MRO, name, static fields and methods. -/
structure ClassEnv where
  mro : Nat → List Nat
  className : Nat → String
  staticFields : Nat → String → Option String
  methods : Nat → String → Option MethodInfo

/-- Instance data: its class and its own symbol table, modelled as the
list of (key, visibility) pairs (`get_visibility` returns the stored
visibility). -/
structure InstanceVal where
  class_ref : Nat
  fields : List (String × String)
deriving DecidableEq, Repr

/-- Member found by attribute resolution. -/
inductive Member where
  | mangledField (key : String)
  | instanceField (name : String)
  | methodMember (mi : MethodInfo)
  | staticField (cls : Nat)
deriving DecidableEq, Repr

/-- Private-field name mangling `_{ClassName}__{name}` (values.py line 1166). -/
def mangle (clsName name : String) : String :=
  "_" ++ clsName ++ "__" ++ name

/-- Embedding of `Instance.check_access` (values.py lines 1132-1160):
PUBLIC is unrestricted, PRIVATE requires the active class to be exactly
the defining class, PROTECTED requires MRO containment in either
direction; `none` means access is allowed. -/
def check_access (env : ClassEnv) (name visibility : String) (defining : Nat)
    (active : Option Nat) : Option String :=
  if visibility = "PUBLIC" then none
  else if visibility = "PRIVATE" then
    match active with
    | some a =>
      if a = defining then none
      else some ("Cannot access private member '" ++ name ++ "'")
    | none => some ("Cannot access private member '" ++ name ++ "'")
  else if visibility = "PROTECTED" then
    match active with
    | some a =>
      if defining ∈ env.mro a ∨ a ∈ env.mro defining then none
      else some ("Cannot access protected member '" ++ name ++ "'")
    | none => some ("Cannot access protected member '" ++ name ++ "'")
  else none

/-- Embedding of the MRO walk of `Class.get_attr` (values.py lines
1022-1108) over an explicit list of classes.  Per class: a static field
is checked (PRIVATE exact, PROTECTED either direction, values.py lines
1028-1052) and returned; otherwise a method is checked (PRIVATE exact,
PROTECTED only `defining_class in active.mro` — one direction, values.py
lines 1070-1074) and returned; otherwise the walk continues. -/
def class_get_attr_walk (env : ClassEnv) (selfName name : String)
    (active : Option Nat) : List Nat → Except String Member
  | [] =>
    .error ("Class '" ++ selfName ++ "' has no member '" ++ name ++ "'")
  | cls :: rest =>
    match env.staticFields cls name with
    | some vis =>
      if vis = "PRIVATE" then
        match active with
        | some a =>
          if a = cls then .ok (.staticField cls)
          else .error ("Cannot access private static field '" ++ name ++ "'")
        | none =>
          .error ("Cannot access private static field '" ++ name ++ "'")
      else if vis = "PROTECTED" then
        match active with
        | some a =>
          if cls ∈ env.mro a ∨ a ∈ env.mro cls then .ok (.staticField cls)
          else .error ("Cannot access protected static field '" ++ name ++ "'")
        | none =>
          .error ("Cannot access protected static field '" ++ name ++ "'")
      else .ok (.staticField cls)
    | none =>
      match env.methods cls name with
      | some mi =>
        if mi.visibility = "PRIVATE" then
          match active with
          | some a =>
            if a = mi.defining then .ok (.methodMember mi)
            else
              .error ("Cannot access private method '" ++ name ++ "' via Class")
          | none =>
            .error ("Cannot access private method '" ++ name ++ "' via Class")
        else if mi.visibility = "PROTECTED" then
          match active with
          | some a =>
            if mi.defining ∈ env.mro a then .ok (.methodMember mi)
            else
              .error ("Cannot access protected method '" ++ name ++ "' via Class")
          | none =>
            .error ("Cannot access protected method '" ++ name ++ "' via Class")
        else .ok (.methodMember mi)
      | none => class_get_attr_walk env selfName name active rest

/-- Embedding of `Class.get_attr` (values.py lines 1019-1108). -/
def class_get_attr (env : ClassEnv) (c : Nat) (name : String)
    (active : Option Nat) : Except String Member :=
  class_get_attr_walk env (env.className c) name active (env.mro c)

/-- Probe of the private-mangled slot for the active class (values.py
lines 1165-1169). -/
def mangled_probe (env : ClassEnv) (inst : InstanceVal) (name : String)
    (active : Option Nat) : Option String :=
  match active with
  | some a => inst.fields.lookup (mangle (env.className a) name)
  | none => none

/-- Embedding of `Instance.get_attr` (values.py lines 1162-1196): the
mangled slot for the active class is probed with no visibility check;
then the instance's own field, checked with `check_access` against the
instance's class; then the class MRO walk, whose non-static method hits
are checked a second time with `check_access` before binding. -/
def instance_get_attr (env : ClassEnv) (inst : InstanceVal) (name : String)
    (active : Option Nat) : Except String Member :=
  if (mangled_probe env inst name active).isSome then
    .ok (.mangledField (match active with
      | some a => mangle (env.className a) name
      | none => name))
  else
    match inst.fields.lookup name with
    | some vis =>
      match check_access env name vis inst.class_ref active with
      | some e => .error e
      | none => .ok (.instanceField name)
    | none =>
      match class_get_attr env inst.class_ref name active with
      | .error e => .error e
      | .ok (.methodMember mi) =>
        if mi.is_static then .ok (.methodMember mi)
        else
          match check_access env name mi.visibility mi.defining active with
          | some e => .error e
          | none => .ok (.methodMember mi)
      | .ok other => .ok other

/-- Modelled from the spec: the claim's access condition — PUBLIC always,
PRIVATE exactly when the active class is the defining class, PROTECTED
when the two are related by MRO containment in either direction. -/
def spec_access_allowed (env : ClassEnv) (vis : String) (defining : Nat)
    (active : Option Nat) : Prop :=
  vis = "PUBLIC" ∨
  (vis = "PRIVATE" ∧ active = some defining) ∨
  (vis = "PROTECTED" ∧ ∃ a, active = some a ∧
    (defining ∈ env.mro a ∨ a ∈ env.mro defining))

/-- Access condition the code actually implements for methods resolved
through the MRO: PROTECTED succeeds only in the subclass direction
(the defining class appears in the active class's MRO). -/
def method_access_allowed (env : ClassEnv) (vis : String) (defining : Nat)
    (active : Option Nat) : Prop :=
  vis = "PUBLIC" ∨
  (vis = "PRIVATE" ∧ active = some defining) ∨
  (vis = "PROTECTED" ∧ ∃ a, active = some a ∧ defining ∈ env.mro a)

/-- Environment for the C4 counterexample: class `A = 0` with MRO `[0]`,
class `B = 1` extending it with MRO `[1, 0]`, and a protected
non-static method `m` defined on `B`. -/
def c4Env : ClassEnv :=
  { mro := fun c => if c = 1 then [1, 0] else if c = 0 then [0] else []
    className := fun c => if c = 0 then "A" else if c = 1 then "B" else "?"
    staticFields := fun _ _ => none
    methods := fun c n =>
      if c = 1 ∧ n = "m" then
        some { visibility := "PROTECTED", defining := 1, is_static := false }
      else none }

/-- Instance of `B` with no instance fields. -/
def c4Inst : InstanceVal := { class_ref := 1, fields := [] }

/-- C4 counterexample: accessing the protected method `m` (defined on
`B`) on a `B` instance with active class `A` — a class related to `B` by
MRO containment (`A ∈ B.mro`), so the claim requires success — fails
with an access error, because the method branch of `Class.get_attr`
checks only the direction `defining ∈ active.mro`.  With active class
`B` the same access succeeds. -/
theorem protected_method_check_one_directional :
    (0 : Nat) ∈ c4Env.mro 1 ∧
    instance_get_attr c4Env c4Inst "m" (some 0) =
      .error "Cannot access protected method 'm' via Class" ∧
    instance_get_attr c4Env c4Inst "m" (some 1) =
      .ok (.methodMember
        { visibility := "PROTECTED", defining := 1, is_static := false }) := by
  refine ⟨by decide, by rfl, by rfl⟩

theorem check_access_none_iff (env : ClassEnv) (name vis : String)
    (defining : Nat) (active : Option Nat)
    (hv : vis = "PUBLIC" ∨ vis = "PRIVATE" ∨ vis = "PROTECTED") :
    check_access env name vis defining active = none ↔
      spec_access_allowed env vis defining active := by
  rcases hv with rfl | rfl | rfl
  · simp [check_access, spec_access_allowed]
  · cases active with
    | none => simp [check_access, spec_access_allowed]
    | some a =>
      by_cases ha : a = defining <;>
        simp [check_access, spec_access_allowed, ha]
  · cases active with
    | none => simp [check_access, spec_access_allowed]
    | some a =>
      by_cases hrel : defining ∈ env.mro a ∨ a ∈ env.mro defining <;>
        simp [check_access, spec_access_allowed, hrel]

theorem class_get_attr_walk_skip (env : ClassEnv) (selfName name : String)
    (active : Option Nat) (pre l : List Nat)
    (hpre : ∀ c ∈ pre, env.staticFields c name = none ∧
      env.methods c name = none) :
    class_get_attr_walk env selfName name active (pre ++ l) =
      class_get_attr_walk env selfName name active l := by
  induction pre with
  | nil => rfl
  | cons c pre ih =>
    have hc := hpre c (List.mem_cons_self _ _)
    have hrest := fun g hg => hpre g (List.mem_cons_of_mem _ hg)
    simp only [List.cons_append, class_get_attr_walk, hc.1, hc.2]
    exact ih hrest

theorem class_get_attr_walk_static_hit (env : ClassEnv)
    (selfName name : String) (active : Option Nat) (d : Nat)
    (rest : List Nat) (vis : String)
    (hv : vis = "PUBLIC" ∨ vis = "PRIVATE" ∨ vis = "PROTECTED")
    (hsf : env.staticFields d name = some vis) :
    (spec_access_allowed env vis d active →
      class_get_attr_walk env selfName name active (d :: rest) =
        .ok (.staticField d)) ∧
    (¬spec_access_allowed env vis d active →
      ∃ e, class_get_attr_walk env selfName name active (d :: rest) =
        .error e) := by
  rcases hv with rfl | rfl | rfl
  · refine ⟨fun _ => ?_, fun hna => absurd (Or.inl rfl) hna⟩
    simp [class_get_attr_walk, hsf]
  · constructor
    · intro hall
      rcases hall with h | h | h
      · exact absurd h (by decide)
      · obtain ⟨-, ha⟩ := h
        simp [class_get_attr_walk, hsf, ha]
      · exact absurd h.1 (by decide)
    · intro hna
      cases active with
      | none =>
        exact ⟨"Cannot access private static field '" ++ name ++ "'",
          by simp [class_get_attr_walk, hsf]⟩
      | some a =>
        have hne : a ≠ d := by
          intro rfl1
          exact hna (Or.inr (Or.inl ⟨rfl, by rw [rfl1]⟩))
        exact ⟨"Cannot access private static field '" ++ name ++ "'",
          by simp [class_get_attr_walk, hsf, hne]⟩
  · constructor
    · intro hall
      rcases hall with h | h | h
      · exact absurd h (by decide)
      · exact absurd h.1 (by decide)
      · obtain ⟨-, a, ha, hrel⟩ := h
        simp [class_get_attr_walk, hsf, ha, hrel]
    · intro hna
      cases active with
      | none =>
        exact ⟨"Cannot access protected static field '" ++ name ++ "'",
          by simp [class_get_attr_walk, hsf]⟩
      | some a =>
        have hrel : ¬(d ∈ env.mro a ∨ a ∈ env.mro d) := by
          intro hr
          exact hna (Or.inr (Or.inr ⟨rfl, a, rfl, hr⟩))
        exact ⟨"Cannot access protected static field '" ++ name ++ "'",
          by simp [class_get_attr_walk, hsf, hrel]⟩

theorem class_get_attr_walk_method_hit (env : ClassEnv)
    (selfName name : String) (active : Option Nat) (d : Nat)
    (rest : List Nat) (mi : MethodInfo)
    (hv : mi.visibility = "PUBLIC" ∨ mi.visibility = "PRIVATE" ∨
      mi.visibility = "PROTECTED")
    (hsf : env.staticFields d name = none)
    (hm : env.methods d name = some mi) :
    (method_access_allowed env mi.visibility mi.defining active →
      class_get_attr_walk env selfName name active (d :: rest) =
        .ok (.methodMember mi)) ∧
    (¬method_access_allowed env mi.visibility mi.defining active →
      ∃ e, class_get_attr_walk env selfName name active (d :: rest) =
        .error e) := by
  rcases hv with hvis | hvis | hvis
  · refine ⟨fun _ => ?_, fun hna => absurd (Or.inl hvis) hna⟩
    simp [class_get_attr_walk, hsf, hm, hvis]
  · constructor
    · intro hall
      rcases hall with h | h | h
      · rw [hvis] at h; exact absurd h (by decide)
      · obtain ⟨-, ha⟩ := h
        simp [class_get_attr_walk, hsf, hm, hvis, ha]
      · rw [hvis] at h; exact absurd h.1 (by decide)
    · intro hna
      cases active with
      | none =>
        exact ⟨"Cannot access private method '" ++ name ++ "' via Class",
          by simp [class_get_attr_walk, hsf, hm, hvis]⟩
      | some a =>
        have hne : a ≠ mi.defining := by
          intro rfl1
          exact hna (Or.inr (Or.inl ⟨hvis, by rw [rfl1]⟩))
        exact ⟨"Cannot access private method '" ++ name ++ "' via Class",
          by simp [class_get_attr_walk, hsf, hm, hvis, hne]⟩
  · constructor
    · intro hall
      rcases hall with h | h | h
      · rw [hvis] at h; exact absurd h (by decide)
      · rw [hvis] at h; exact absurd h.1 (by decide)
      · obtain ⟨-, a, ha, hrel⟩ := h
        simp [class_get_attr_walk, hsf, hm, hvis, ha, hrel]
    · intro hna
      cases active with
      | none =>
        exact ⟨"Cannot access protected method '" ++ name ++ "' via Class",
          by simp [class_get_attr_walk, hsf, hm, hvis]⟩
      | some a =>
        have hrel : mi.defining ∉ env.mro a := by
          intro hr
          exact hna (Or.inr (Or.inr ⟨hvis, a, rfl, hr⟩))
        exact ⟨"Cannot access protected method '" ++ name ++ "' via Class",
          by simp [class_get_attr_walk, hsf, hm, hvis, hrel]⟩

theorem method_allows_spec (env : ClassEnv) (vis : String) (defining : Nat)
    (active : Option Nat) (h : method_access_allowed env vis defining active) :
    spec_access_allowed env vis defining active := by
  rcases h with h | h | ⟨hp, a, ha, hin⟩
  · exact Or.inl h
  · exact Or.inr (Or.inl h)
  · exact Or.inr (Or.inr ⟨hp, a, ha, Or.inl hin⟩)

/-- C4 amended: for a member access on an instance (with the mangled probe
missing), PRIVATE and PUBLIC behave as the claim states for all three
member kinds, and PROTECTED succeeds by MRO containment in either
direction for instance fields (defining class taken as the instance's
class) and for static fields — but for methods resolved through the MRO
it succeeds only when the defining class appears in the active class's
MRO (`protected_method_check_one_directional` shows the reverse
direction failing). -/
theorem instance_access_visibility_amended :
    (∀ (env : ClassEnv) (inst : InstanceVal) (name : String)
        (active : Option Nat) (vis : String),
      mangled_probe env inst name active = none →
      inst.fields.lookup name = some vis →
      (vis = "PUBLIC" ∨ vis = "PRIVATE" ∨ vis = "PROTECTED") →
      ((∃ m, instance_get_attr env inst name active = .ok m) ↔
        spec_access_allowed env vis inst.class_ref active)) ∧
    (∀ (env : ClassEnv) (inst : InstanceVal) (name : String)
        (active : Option Nat) (pre : List Nat) (d : Nat) (rest : List Nat)
        (vis : String),
      mangled_probe env inst name active = none →
      inst.fields.lookup name = none →
      env.mro inst.class_ref = pre ++ d :: rest →
      (∀ c ∈ pre, env.staticFields c name = none ∧ env.methods c name = none) →
      env.staticFields d name = some vis →
      (vis = "PUBLIC" ∨ vis = "PRIVATE" ∨ vis = "PROTECTED") →
      ((∃ m, instance_get_attr env inst name active = .ok m) ↔
        spec_access_allowed env vis d active)) ∧
    (∀ (env : ClassEnv) (inst : InstanceVal) (name : String)
        (active : Option Nat) (pre : List Nat) (d : Nat) (rest : List Nat)
        (mi : MethodInfo),
      mangled_probe env inst name active = none →
      inst.fields.lookup name = none →
      env.mro inst.class_ref = pre ++ d :: rest →
      (∀ c ∈ pre, env.staticFields c name = none ∧ env.methods c name = none) →
      env.staticFields d name = none →
      env.methods d name = some mi →
      (mi.visibility = "PUBLIC" ∨ mi.visibility = "PRIVATE" ∨
        mi.visibility = "PROTECTED") →
      ((∃ m, instance_get_attr env inst name active = .ok m) ↔
        method_access_allowed env mi.visibility mi.defining active)) := by
  refine ⟨?_, ?_, ?_⟩
  · intro env inst name active vis hmiss hf hv
    cases hca : check_access env name vis inst.class_ref active with
    | none =>
      have hall := (check_access_none_iff env name vis inst.class_ref
        active hv).mp hca
      simp [instance_get_attr, hmiss, hf, hca, hall]
    | some e =>
      have hnall : ¬spec_access_allowed env vis inst.class_ref active := by
        intro hall
        have := (check_access_none_iff env name vis inst.class_ref
          active hv).mpr hall
        rw [hca] at this
        cases this
      simp [instance_get_attr, hmiss, hf, hca, hnall]
  · intro env inst name active pre d rest vis hmiss hfnone hmro hpre hsf hv
    have hwalk := class_get_attr_walk_skip env (env.className inst.class_ref)
      name active pre (d :: rest) hpre
    have hhit := class_get_attr_walk_static_hit env
      (env.className inst.class_ref) name active d rest vis hv hsf
    have hcga : class_get_attr env inst.class_ref name active =
        class_get_attr_walk env (env.className inst.class_ref) name active
          (d :: rest) := by
      unfold class_get_attr
      rw [hmro, hwalk]
    constructor
    · rintro ⟨m, hm⟩
      by_contra hna
      obtain ⟨e, he⟩ := hhit.2 hna
      simp [instance_get_attr, hmiss, hfnone, hcga, he] at hm
    · intro hall
      have hwk := hhit.1 hall
      exact ⟨.staticField d,
        by simp [instance_get_attr, hmiss, hfnone, hcga, hwk]⟩
  · intro env inst name active pre d rest mi hmiss hfnone hmro hpre hsf hm hv
    have hwalk := class_get_attr_walk_skip env (env.className inst.class_ref)
      name active pre (d :: rest) hpre
    have hhit := class_get_attr_walk_method_hit env
      (env.className inst.class_ref) name active d rest mi hv hsf hm
    have hcga : class_get_attr env inst.class_ref name active =
        class_get_attr_walk env (env.className inst.class_ref) name active
          (d :: rest) := by
      unfold class_get_attr
      rw [hmro, hwalk]
    constructor
    · rintro ⟨m, hmm⟩
      by_contra hna
      obtain ⟨e, he⟩ := hhit.2 hna
      simp [instance_get_attr, hmiss, hfnone, hcga, he] at hmm
    · intro hall
      have hwk := hhit.1 hall
      have hca : check_access env name mi.visibility mi.defining active = none :=
        (check_access_none_iff env name mi.visibility mi.defining active
          hv).mpr (method_allows_spec env mi.visibility mi.defining active hall)
      refine ⟨.methodMember mi, ?_⟩
      by_cases hst : mi.is_static <;>
        simp [instance_get_attr, hmiss, hfnone, hcga, hwk, hca, hst]

/-- Instance of `B` holding a private instance field `f`, for the C4
witness. -/
def c4InstF : InstanceVal := { class_ref := 1, fields := [("f", "PRIVATE")] }

/-- Environment with a protected static field `s` on class `A = 0`, for
the C4 witness. -/
def c4EnvS : ClassEnv :=
  { mro := fun c => if c = 1 then [1, 0] else if c = 0 then [0] else []
    className := fun c => if c = 0 then "A" else if c = 1 then "B" else "?"
    staticFields := fun c n =>
      if c = 0 ∧ n = "s" then some "PROTECTED" else none
    methods := fun _ _ => none }

/-- Witness for C4's amended theorem: a private field accessed from its
own class, a protected static field accessed from its defining class,
and a protected method accessed from its defining class all succeed. -/
theorem instance_access_visibility_amended_witness :
    (∃ m, instance_get_attr c4Env c4InstF "f" (some 1) = .ok m) ∧
    (∃ m, instance_get_attr c4EnvS c4Inst "s" (some 0) = .ok m) ∧
    (∃ m, instance_get_attr c4Env c4Inst "m" (some 1) = .ok m) :=
  ⟨(instance_access_visibility_amended.1 c4Env c4InstF "f" (some 1) "PRIVATE"
      (by decide) (by decide) (Or.inr (Or.inl rfl))).mpr
      (Or.inr (Or.inl ⟨rfl, rfl⟩)),
    (instance_access_visibility_amended.2.1 c4EnvS c4Inst "s" (some 0) [1] 0 []
      "PROTECTED" (by decide) (by decide) (by decide) (by decide) (by decide)
      (Or.inr (Or.inr rfl))).mpr
      (Or.inr (Or.inr ⟨rfl, 0, rfl, Or.inl (by decide)⟩)),
    (instance_access_visibility_amended.2.2 c4Env c4Inst "m" (some 1) [] 1 [0]
      { visibility := "PROTECTED", defining := 1, is_static := false }
      (by decide) (by decide) (by decide) (by decide) (by decide) (by decide)
      (Or.inr (Or.inr rfl))).mpr
      (Or.inr (Or.inr ⟨rfl, 1, rfl, by decide⟩))⟩

/-! ## Cycle-safe structural equality: `List.get_comparison_eq`
(values.py lines 541-569) and `Dict.get_comparison_eq` (values.py lines
654-685)

Python values alias container objects, so containers live in an explicit
heap: a `GVal.ref` is an object reference (Python `id`), and the visited
set of the source — keyed by the pair of ids, extended with `add` before
the element loop and removed in the `finally` — is the extra list
argument threaded only downward.  The source's early `return` inside the
element loops is modelled by an absorbing fold accumulator: once the
accumulator is an error or a false result, later elements no longer
invoke the comparison.  The fuel argument decreases by one per container
pair entered; the theorems below show a quadratic fuel bound always
suffices, which is the termination content of the claim. -/

/-- Dict key: `Number` or `String` payload (values.py lines 623-630
restrict keys to these). -/
inductive GKey where
  | num (n : Int)
  | str (s : String)
deriving DecidableEq, Repr

/-- Runtime value seen by structural equality: number, string, or a
reference to a container object in the heap. -/
inductive GVal where
  | num (n : Int)
  | str (s : String)
  | ref (a : Nat)
deriving DecidableEq, Repr

/-- Heap object: a list's element array or a dict's entries. -/
inductive HObj where
  | lst (elems : List GVal)
  | dct (entries : List (GKey × GVal))
deriving DecidableEq, Repr

/-- Python dict lookup `other.elements[key]` (keys are unique in a
Python dict; an association list models it). -/
def dictLookup : List (GKey × GVal) → GKey → Option GVal
  | [], _ => none
  | (k, v) :: rest, key => if k = key then some v else dictLookup rest key

/-- Fueled embedding of the `get_comparison_eq` family.  Dispatch follows
the Python classes: `Number.get_comparison_eq` (values.py lines 247-254)
and `String.get_comparison_eq` (lines 387-394) compare payloads of equal
kinds and reject the rest as illegal operations (`.error ()`);
`List.get_comparison_eq` (lines 541-569) and `Dict.get_comparison_eq`
(lines 654-685) first compare lengths, then treat an
already-in-progress identity pair as equal, then recurse elementwise
with the pair added to the visited set.  `none` is fuel exhaustion. -/
def eqVal : Nat → List HObj → List (Nat × Nat) → GVal → GVal →
    Option (Except Unit Bool)
  | 0, _, _, _, _ => none
  | f + 1, h, vis, v1, v2 =>
    match v1, v2 with
    | .num a, .num b => some (.ok (decide (a = b)))
    | .str a, .str b => some (.ok (decide (a = b)))
    | .ref a, .ref b =>
      match h.get? a, h.get? b with
      | some (.lst xs), some (.lst ys) =>
        if xs.length ≠ ys.length then some (.ok false)
        else if (a, b) ∈ vis then some (.ok true)
        else
          (xs.zip ys).foldl
            (fun acc p =>
              match acc with
              | some (.ok true) => eqVal f h ((a, b) :: vis) p.1 p.2
              | other => other)
            (some (.ok true))
      | some (.dct xs), some (.dct ys) =>
        if xs.length ≠ ys.length then some (.ok false)
        else if (a, b) ∈ vis then some (.ok true)
        else
          xs.foldl
            (fun acc kv =>
              match acc with
              | some (.ok true) =>
                match dictLookup ys kv.1 with
                | none => some (.ok false)
                | some w => eqVal f h ((a, b) :: vis) kv.2 w
              | other => other)
            (some (.ok true))
      | _, _ => some (.error ())
    | _, _ => some (.error ())

/-- Structural equality as invoked by `==` on two values: the visited set
starts empty (Python `visited is None`) and the fuel is the quadratic
bound on distinct identity pairs. -/
def get_comparison_eq (h : List HObj) (v1 v2 : GVal) :
    Option (Except Unit Bool) :=
  eqVal (h.length * h.length + 1) h [] v1 v2

/-- Identity pairs over a heap of `n` objects. -/
def validPairs (n : Nat) : Finset (Nat × Nat) :=
  Finset.range n ×ˢ Finset.range n

/-- Number of identity pairs not yet in the visited set. -/
def unvisitedCount (n : Nat) (vis : List (Nat × Nat)) : Nat :=
  ((validPairs n).filter fun p => p ∉ vis).card

theorem unvisitedCount_cons_lt {n a b : Nat} {vis : List (Nat × Nat)}
    (ha : a < n) (hb : b < n) (hnv : (a, b) ∉ vis) :
    unvisitedCount n ((a, b) :: vis) < unvisitedCount n vis := by
  apply Finset.card_lt_card
  rw [Finset.ssubset_iff_of_subset]
  · refine ⟨(a, b), ?_, ?_⟩
    · exact Finset.mem_filter.mpr
        ⟨Finset.mem_product.mpr ⟨Finset.mem_range.mpr ha,
          Finset.mem_range.mpr hb⟩, hnv⟩
    · intro hmem
      exact (Finset.mem_filter.mp hmem).2 (List.mem_cons_self _ _)
  · intro p hp
    obtain ⟨hval, hnin⟩ := Finset.mem_filter.mp hp
    exact Finset.mem_filter.mpr
      ⟨hval, fun hin => hnin (List.mem_cons_of_mem _ hin)⟩

theorem foldl_absorb_ne_none {α : Type}
    (g : α → Option (Except Unit Bool)) (l : List α)
    (acc : Option (Except Unit Bool)) (hacc : acc ≠ none)
    (hg : ∀ p ∈ l, g p ≠ none) :
    l.foldl
      (fun acc p =>
        match acc with
        | some (.ok true) => g p
        | other => other) acc ≠ none := by
  induction l generalizing acc with
  | nil => exact hacc
  | cons p l ih =>
    rw [List.foldl_cons]
    apply ih
    · match acc, hacc with
      | some (.ok true), _ => exact hg p (List.mem_cons_self _ _)
      | some (.ok false), _ => simp
      | some (.error e), _ => simp
    · exact fun q hq => hg q (List.mem_cons_of_mem _ hq)

theorem eqVal_sufficient_fuel (h : List HObj) :
    ∀ (f : Nat) (vis : List (Nat × Nat)) (v1 v2 : GVal),
      unvisitedCount h.length vis < f → eqVal f h vis v1 v2 ≠ none := by
  intro f
  induction f with
  | zero => intro vis v1 v2 hc; omega
  | succ f ih =>
    intro vis v1 v2 hc
    match v1, v2 with
    | .num a, .num b => simp [eqVal]
    | .num a, .str b => simp [eqVal]
    | .num a, .ref b => simp [eqVal]
    | .str a, .num b => simp [eqVal]
    | .str a, .str b => simp [eqVal]
    | .str a, .ref b => simp [eqVal]
    | .ref a, .num b => simp [eqVal]
    | .ref a, .str b => simp [eqVal]
    | .ref a, .ref b =>
      simp only [eqVal]
      cases hga : h.get? a with
      | none => simp
      | some oa =>
        cases hgb : h.get? b with
        | none => cases oa <;> simp
        | some ob =>
          have ha : a < h.length := by
            have := List.get?_eq_some.mp hga
            exact this.1
          have hb : b < h.length := by
            have := List.get?_eq_some.mp hgb
            exact this.1
          cases oa with
          | lst xs =>
            cases ob with
            | dct ys => simp
            | lst ys =>
              dsimp only
              by_cases hlen : xs.length ≠ ys.length
              · simp [hlen]
              · rw [if_neg (by simpa using hlen)]
                by_cases hpv : (a, b) ∈ vis
                · simp [hpv]
                · rw [if_neg hpv]
                  have hlt := unvisitedCount_cons_lt ha hb hpv
                  apply foldl_absorb_ne_none
                  · simp
                  · intro p hp
                    exact ih ((a, b) :: vis) p.1 p.2 (by omega)
          | dct xs =>
            cases ob with
            | lst ys => simp
            | dct ys =>
              dsimp only
              by_cases hlen : xs.length ≠ ys.length
              · simp [hlen]
              · rw [if_neg (by simpa using hlen)]
                by_cases hpv : (a, b) ∈ vis
                · simp [hpv]
                · rw [if_neg hpv]
                  have hlt := unvisitedCount_cons_lt ha hb hpv
                  apply foldl_absorb_ne_none
                  · simp
                  · intro kv hkv
                    cases hdl : dictLookup ys kv.1 with
                    | none => simp
                    | some w =>
                      exact ih ((a, b) :: vis) kv.2 w (by omega)

/-- C9: structural equality `==` terminates and returns a result on every
pair of values over every heap — including self-referential lists and
dicts — with the quadratic fuel bound always sufficient; and a list or
dict pair whose identity pair is already in progress is treated as equal
without recursing. -/
theorem container_eq_terminates :
    (∀ (h : List HObj) (v1 v2 : GVal),
      ∃ r, get_comparison_eq h v1 v2 = some r) ∧
    (∀ (f : Nat) (h : List HObj) (vis : List (Nat × Nat)) (a b : Nat)
        (xs ys : List GVal),
      h.get? a = some (.lst xs) → h.get? b = some (.lst ys) →
      xs.length = ys.length → (a, b) ∈ vis →
      eqVal (f + 1) h vis (.ref a) (.ref b) = some (.ok true)) ∧
    (∀ (f : Nat) (h : List HObj) (vis : List (Nat × Nat)) (a b : Nat)
        (xs ys : List (GKey × GVal)),
      h.get? a = some (.dct xs) → h.get? b = some (.dct ys) →
      xs.length = ys.length → (a, b) ∈ vis →
      eqVal (f + 1) h vis (.ref a) (.ref b) = some (.ok true)) := by
  refine ⟨?_, ?_, ?_⟩
  · intro h v1 v2
    have hcount : unvisitedCount h.length [] < h.length * h.length + 1 := by
      have : unvisitedCount h.length [] ≤ (validPairs h.length).card :=
        Finset.card_filter_le _ _
      have hcard : (validPairs h.length).card = h.length * h.length := by
        simp [validPairs]
      omega
    have := eqVal_sufficient_fuel h (h.length * h.length + 1) [] v1 v2 hcount
    exact Option.ne_none_iff_exists'.mp this
  · intro f h vis a b xs ys hga hgb hlen hpv
    rw [List.get?_eq_getElem?] at hga hgb
    simp [eqVal, hga, hgb, hlen, hpv]
  · intro f h vis a b xs ys hga hgb hlen hpv
    rw [List.get?_eq_getElem?] at hga hgb
    simp [eqVal, hga, hgb, hlen, hpv]

/-- Witness for C9 on the self-referential list `l = [l]`: comparing the
object with itself terminates with `true`, and the in-progress-pair rule
applies at the concrete heap. -/
theorem container_eq_terminates_witness :
    get_comparison_eq [HObj.lst [GVal.ref 0]] (.ref 0) (.ref 0) =
      some (.ok true) ∧
    eqVal 1 [HObj.lst [GVal.ref 0]] [(0, 0)] (.ref 0) (.ref 0) =
      some (.ok true) :=
  ⟨by
    obtain ⟨r, hr⟩ := container_eq_terminates.1
      [HObj.lst [GVal.ref 0]] (.ref 0) (.ref 0)
    rfl,
    container_eq_terminates.2.1 0 [HObj.lst [GVal.ref 0]] [(0, 0)] 0 0
      [GVal.ref 0] [GVal.ref 0] (by decide) (by decide) (by decide) (by decide)⟩

end Gladlang
